import Mathlib

/-!
Verification of the telnet-irc relay (src/telnet-irc.c) against its
natural-language specification.

Bytes are modelled as natural numbers. A chunk read from a descriptor is a
`List Nat`; the C-string view of a calloc-zeroed buffer is the prefix of the
chunk before its first NUL byte.
-/

/-- C's isspace over the default locale: space (32) or 9..13 (tab, newline,
vertical tab, form feed, carriage return). -/
def isCSpace (c : Nat) : Bool := c == 32 || (9 ≤ c && c ≤ 13)

/-- C's isdigit: the ASCII digits 48..57. -/
def isDigit (c : Nat) : Bool := 48 ≤ c && c ≤ 57

/-- The bytes of the literal PING. -/
def pingBytes : List Nat := [80, 73, 78, 71]

/-- The C-string view of a chunk placed in a calloc-zeroed buffer: the bytes
before the first NUL. String functions (strstr, sscanf, printf %s, strlen)
in telnet-irc.c see exactly this prefix. -/
def cstr (chunk : List Nat) : List Nat := chunk.takeWhile (fun b => b != 0)

/-- Whether `needle` occurs at the start of `hay`. -/
def startsWithB : List Nat → List Nat → Bool
  | _, [] => true
  | [], _ :: _ => false
  | a :: hs, b :: ns => a == b && startsWithB hs ns

/-- strstr(hay, needle) as a boolean: `needle` occurs somewhere in `hay`. -/
def strstrB : List Nat → List Nat → Bool
  | [], needle => startsWithB [] needle
  | a :: rest, needle => startsWithB (a :: rest) needle || strstrB rest needle

/-- sscanf(data, "PING %s\n", source) of telnet-irc.c line 201: the literal
PING must match at the very start of the data; the space directive then skips
any run of whitespace; %s takes the maximal nonempty run of non-whitespace
bytes. On a failed match or conversion, source keeps the empty string that
calloc produced, which this function returns as []. -/
def scanOrigin (data : List Nat) : List Nat :=
  if data.take 4 = pingBytes then
    ((data.drop 4).dropWhile isCSpace).takeWhile (fun c => !(isCSpace c))
  else []

/-- sprintf(buffer, "PONG %s\n", source) of telnet-irc.c line 206. -/
def pongOf (source : List Nat) : List Nat := [80, 79, 78, 71, 32] ++ source ++ [10]

/-- processPing of telnet-irc.c lines 188..217, applied to the C-string view
of a chunk. Returns the C int result (as Bool) paired with the list of writes
it performs on the Transport (the child process's stdin): on a strstr hit it
writes exactly one reply, PONG followed by the scanned origin. -/
def processPing (data : List Nat) : Bool × List (List Nat) :=
  if strstrB data pingBytes then (true, [pongOf (scanOrigin data)]) else (false, [])

/-- One iteration of the pipeEventCallback while-loop (telnet-irc.c lines
234..251) on one chunk: take the C-string view of the read buffer, try
processPing; when it reports no PING, printf("%s", data) sends the C string
to standard output. Result: (Transport writes, stdout bytes). -/
def pipeChunk (chunk : List Nat) : List (List Nat) × List Nat :=
  let s := cstr chunk
  let r := processPing s
  if r.1 then (r.2, []) else ([], s)

/-- One iteration of the stdinEventCallback while-loop (telnet-irc.c lines
314..327) on one chunk: write(p->in, data, strlen(data)) sends the C-string
view of the buffer to the Transport, one write per chunk. -/
def stdinChunk (chunk : List Nat) : List (List Nat) := [cstr chunk]

/-- The body of the drain loop, structurally recursive on a fuel bound: each
iteration consumes at least one pending byte, so `pending.length` iterations
always suffice. With enough fuel: no pending data means the while-loop is not
entered; otherwise read(fd, data, 1024) returns the first min(1024, pending)
bytes and the loop re-checks what is left. -/
def drainAux : Nat → List Nat → List (List Nat)
  | _, [] => []
  | 0, _ :: _ => []
  | fuel + 1, a :: rest => (a :: rest).take 1024 :: drainAux fuel ((a :: rest).drop 1024)

/-- The drain loop shared by both callbacks: ioctl(fd, FIONREAD, &count) asks
how many bytes are pending; while count > 0, read(fd, data, 1024) consumes up
to 1024 of them, and the count is re-checked. `drain pending` is the list of
chunks the successive reads return for a pending buffer. -/
def drain (pending : List Nat) : List (List Nat) := drainAux pending.length pending

/-- Observable state threaded through the event loop: the writes made to the
Transport (p->in), the bytes printed to standard output, and whether
event_base_loopbreak has been requested. -/
structure IOState where
  writes : List (List Nat)
  out : List Nat
  breakReq : Bool
deriving DecidableEq, Repr

/-- The state at loop entry: nothing written, no break requested. -/
def initState : IOState := ⟨[], [], false⟩

/-- The effect of processing a list of chunks in pipeEventCallback's
while-loop, in order. The callback never touches the break flag: no statement
of pipeEventCallback (telnet-irc.c lines 228..257) calls
event_base_loopbreak. -/
def pipeFold : List (List Nat) → IOState → IOState
  | [], s => s
  | c :: cs, s =>
    pipeFold cs ⟨s.writes ++ (pipeChunk c).1, s.out ++ (pipeChunk c).2, s.breakReq⟩

/-- pipeEventCallback of telnet-irc.c lines 228..257 on a pending inbound
buffer: drain it in reads of at most 1024 bytes and process each chunk. -/
def pipeEventCallback (pending : List Nat) (s : IOState) : IOState :=
  pipeFold (drain pending) s

/-- The effect of processing a list of chunks in stdinEventCallback's
while-loop, in order. Like the pipe callback, it never touches the break
flag. -/
def stdinFold : List (List Nat) → IOState → IOState
  | [], s => s
  | c :: cs, s => stdinFold cs ⟨s.writes ++ stdinChunk c, s.out, s.breakReq⟩

/-- stdinEventCallback of telnet-irc.c lines 308..333 on a pending local-input
buffer: drain it in reads of at most 1024 bytes and forward each chunk. -/
def stdinEventCallback (pending : List Nat) (s : IOState) : IOState :=
  stdinFold (drain pending) s

/-- SIGINT on Linux. -/
def SIGINT : Nat := 2

/-- SIGCHLD on Linux. -/
def SIGCHLD : Nat := 17

/-- The bytes printf("\b\b\r") emits in handleSignals to hide a typed ^C. -/
def backspaceBytes : List Nat := [8, 8, 13]

/-- handleSignals of telnet-irc.c lines 152..160: on SIGINT print backspaces
to hide ^C; then, whenever the event base is non-null, request
event_base_loopbreak. Registered for both SIGINT and SIGCHLD (main lines
73..74). -/
def handleSignals (sig : Nat) (baseNonNull : Bool) (s : IOState) : IOState :=
  let s1 : IOState :=
    if sig == SIGINT then ⟨s.writes, s.out ++ backspaceBytes, s.breakReq⟩ else s
  if baseNonNull then ⟨s1.writes, s1.out, true⟩ else s1

/-- The spec's two-state event-loop machine (spec 4.2). -/
inductive LoopState
  | Running
  | Stopped
deriving DecidableEq, Repr

/-- event_base_loop keeps running until a loopbreak is requested; the loop is
Stopped exactly when the break flag is set. -/
def loopState (s : IOState) : LoopState :=
  if s.breakReq then LoopState.Stopped else LoopState.Running

/-- The events that can reach the Running loop: peer data pending on the pipe
(an end-of-stream shows up as 0 pending bytes, i.e. an empty buffer), local
input pending on stdin, or a delivered signal. -/
inductive Ev
  | peer (pending : List Nat)
  | localIn (pending : List Nat)
  | sig (n : Nat)

/-- One dispatch of the Running event loop: during the loop the event base is
non-null, so a signal handler invocation sees baseNonNull = true. -/
def step (s : IOState) : Ev → IOState
  | Ev.peer pending => pipeEventCallback pending s
  | Ev.localIn pending => stdinEventCallback pending s
  | Ev.sig n => handleSignals n true s

/-- digitsToInt l acc: the accumulator loop inside C's atoi, consuming leading
ASCII digits of l into acc and stopping at the first non-digit. -/
def digitsToInt : List Nat → Nat → Nat
  | [], acc => acc
  | c :: rest, acc =>
    if isDigit c then digitsToInt rest (acc * 10 + (c - 48)) else acc

/-- The step of atoi after whitespace skipping: honour one optional sign (43
is the plus sign, 45 the minus sign), then read the maximal digit run with
digitsToInt; anything after the run is silently ignored, and an input with no
digit run yields 0. -/
def atoiSigned : List Nat → Int
  | [] => 0
  | c :: rest =>
    if c = 43 then (digitsToInt rest 0 : Int)
    else if c = 45 then -(digitsToInt rest 0 : Int)
    else (digitsToInt (c :: rest) 0 : Int)

/-- atoi(argv[2]) as used at telnet-irc.c line 49: skip leading whitespace,
then convert sign and digit run. -/
def atoi (s : List Nat) : Int := atoiSigned (s.dropWhile isCSpace)

/-- A command line: argv[1] (the host) and argv[2] (the port string) when
present. -/
structure Invocation where
  host : Option (List Nat)
  portArg : Option (List Nat)

/-- The port main ends up with: initialized to 6667 and overwritten with
atoi(argv[2]) when a second argument exists (telnet-irc.c lines 41, 48..49). -/
def effectivePort (inv : Invocation) : Int :=
  match inv.portArg with
  | none => 6667
  | some s => atoi s

/-- The control-flow paths of main (telnet-irc.c lines 35..121): no host
argument; port outside 1..65535; getIPFromHost returned NULL; signal
registration failed; or the full run reaching process_open and the event
loop with the validated port. -/
inductive MainPath
  | errNoHost
  | errBadPort
  | errResolve
  | errSignal
  | run (port : Int)
deriving DecidableEq, Repr

/-- The branch structure of main: the host check at line 46, the port window
check at line 53, the resolution check at line 59, the signal registration
check at lines 73..74. getIPFromHost is only reached inside the port check's
then-branch. -/
def mainPath (inv : Invocation) (resolveOk : Bool) (signalOk : Bool) : MainPath :=
  match inv.host with
  | none => MainPath.errNoHost
  | some _ =>
    if 0 < effectivePort inv ∧ effectivePort inv < 65536 then
      if resolveOk then
        if signalOk then MainPath.run (effectivePort inv) else MainPath.errSignal
      else MainPath.errResolve
    else MainPath.errBadPort

/-- Whether the run called getIPFromHost: every path except the two usage
errors first evaluates getIPFromHost(argv[1]) at line 58. -/
def resolutionAttempted (inv : Invocation) (resolveOk : Bool) (signalOk : Bool) : Bool :=
  match mainPath inv resolveOk signalOk with
  | MainPath.errNoHost => false
  | MainPath.errBadPort => false
  | _ => true

/-- The status main returns (telnet-irc.c lines 43, 120): status is declared
as -1 and no statement of main ever assigns it again, so every path — the
usage errors, the resolution failure, and a completed run of the event loop —
returns -1. -/
def mainStatus (inv : Invocation) (resolveOk : Bool) (signalOk : Bool) : Int :=
  match mainPath inv resolveOk signalOk with
  | MainPath.errNoHost => -1
  | MainPath.errBadPort => -1
  | MainPath.errResolve => -1
  | MainPath.errSignal => -1
  | MainPath.run _ => -1

/-- The resources teardown releases: the Transport (the child process and its
pipe pair) and the two event watches. -/
structure TeardownState where
  transportOpen : Bool
  pipeWatchRegistered : Bool
  stdinWatchRegistered : Bool
deriving DecidableEq, Repr

/-- Modelled from the spec: the bodies of procmanage's process_close and
process_free are in procmanage/procmanage.c, which is not under src/; spec
4.5 requires that closing an already-closed Transport be a no-op, not an
error. -/
def closeTransport (s : TeardownState) : TeardownState :=
  if s.transportOpen then ⟨false, s.pipeWatchRegistered, s.stdinWatchRegistered⟩ else s

/-- Modelled from the spec: libevent's event_del body is not under src/; spec
4.5 requires that un-registering an already-unregistered watch be a no-op. -/
def unregisterPipeWatch (s : TeardownState) : TeardownState :=
  if s.pipeWatchRegistered then ⟨s.transportOpen, false, s.stdinWatchRegistered⟩ else s

/-- Modelled from the spec: libevent's event_del body is not under src/; spec
4.5 requires that un-registering an already-unregistered watch be a no-op. -/
def unregisterStdinWatch (s : TeardownState) : TeardownState :=
  if s.stdinWatchRegistered then ⟨s.transportOpen, s.pipeWatchRegistered, false⟩ else s

/-- The teardown sequence after the loop exits: event_del on both watches
(startEvents lines 289, 291) followed by process_close of the Transport (main
line 99). -/
def teardown (s : TeardownState) : TeardownState :=
  closeTransport (unregisterStdinWatch (unregisterPipeWatch s))

/-- Whether a list starts with no ASCII digit (or is empty). -/
def noNumHead : List Nat → Bool
  | [] => true
  | c :: _ => !isDigit c

/-- Whether, after one optional sign, a list starts with no ASCII digit. -/
def noNumDigit : List Nat → Bool
  | [] => true
  | c :: rest => if c = 43 ∨ c = 45 then noNumHead rest else !isDigit c

/-- Whether, after an optional whitespace run and one optional sign, the
argument starts with no ASCII digit — the inputs the claim calls having no
leading numeric prefix. -/
def noNumericStart (s : List Nat) : Bool := noNumDigit (s.dropWhile isCSpace)

/-! Helper lemmas about takeWhile/dropWhile on appended lists. -/

theorem takeWhile_append_all (p : Nat → Bool) (l1 l2 : List Nat)
    (h : ∀ a ∈ l1, p a = true) :
    (l1 ++ l2).takeWhile p = l1 ++ l2.takeWhile p := by
  induction l1 with
  | nil => simp
  | cons a l ih =>
    have ha : p a = true := h a (by simp)
    simp [List.takeWhile_cons, ha, ih (fun x hx => h x (by simp [hx]))]

theorem takeWhile_all (p : Nat → Bool) (l : List Nat) (h : ∀ a ∈ l, p a = true) :
    l.takeWhile p = l := by
  have h2 := takeWhile_append_all p l [] h
  simpa using h2

theorem dropWhile_append_all (p : Nat → Bool) (l1 l2 : List Nat)
    (h : ∀ a ∈ l1, p a = true) :
    (l1 ++ l2).dropWhile p = l2.dropWhile p := by
  induction l1 with
  | nil => simp
  | cons a l ih =>
    have ha : p a = true := h a (by simp)
    simp [List.dropWhile_cons, ha, ih (fun x hx => h x (by simp [hx]))]

theorem strstrB_of_starts (hay needle : List Nat) (h : startsWithB hay needle = true) :
    strstrB hay needle = true := by
  cases hay with
  | nil => simpa [strstrB] using h
  | cons a rest => simp [strstrB, h]

/-- C8: the sequence event_del + event_del + process_close run a second time
changes nothing: all three constituent operations skip their work when the
resource is already released. -/
theorem teardown_idempotent (s : TeardownState) : teardown (teardown s) = teardown s := by
  rcases s with ⟨a, b, c⟩
  cases a <;> cases b <;> cases c <;> rfl

/-- C2: breaking the loop with SIGINT does transition the loop to Stopped,
but main then returns the status variable that was initialized to -1 and
never reassigned, so the normal interrupt-driven shutdown exits with -1,
not 0. -/
theorem interrupt_shutdown_status :
    loopState (step initState (Ev.sig SIGINT)) = LoopState.Stopped ∧
    mainStatus ⟨some [104], none⟩ true true = -1 ∧
    mainStatus ⟨some [104], none⟩ true true ≠ 0 := by decide

/-- C5: an end-of-stream on the Transport reaches pipeEventCallback as zero
pending bytes; the callback then returns without requesting a loop break, so
the loop stays Running. Only a delivered signal (here SIGCHLD, the child
exiting) sets the break flag and reaches Stopped. -/
theorem peer_eof_keeps_running :
    pipeEventCallback [] initState = initState ∧
    loopState (pipeEventCallback [] initState) = LoopState.Running ∧
    loopState (step initState (Ev.sig SIGCHLD)) = LoopState.Stopped := by decide

/-- C3 (amended): a chunk whose bytes avoid NUL and that does not contain
PING is echoed to standard output byte-for-byte, with no Transport write. -/
theorem no_ping_passthrough (chunk : List Nat)
    (hping : strstrB chunk pingBytes = false)
    (hz : ∀ b ∈ chunk, b ≠ 0) :
    pipeChunk chunk = ([], chunk) := by
  have hc : cstr chunk = chunk := by
    apply takeWhile_all
    intro a ha
    simpa using hz a ha
  simp [pipeChunk, hc, processPing, hping]

/-- C3 witness at the chunk 104 105 (the text hi). -/
theorem no_ping_passthrough_witness : pipeChunk [104, 105] = ([], [104, 105]) :=
  no_ping_passthrough [104, 105] (by decide) (by decide)

/-- C3 counterexample: the chunk 97 0 98 contains no PING, yet printf %s
stops at the NUL byte: standard output receives only 97, not every byte of
the chunk. -/
theorem no_ping_passthrough_cex :
    strstrB [97, 0, 98] pingBytes = false ∧
    pipeChunk [97, 0, 98] = ([], [97]) ∧
    ([97] : List Nat) ≠ [97, 0, 98] := by decide

/-- C4 counterexample: write(p->in, data, strlen(data)) measures the chunk
with strlen, so the local-input chunk 97 0 98 reaches the Transport as the
single byte 97 — not verbatim. -/
theorem local_input_forward_cex :
    stdinChunk [97, 0, 98] = [[97]] ∧
    ([97] : List Nat) ≠ [97, 0, 98] := by decide

/-! Helper lemmas about the drain loop. -/

theorem drainAux_congr (f1 : Nat) :
    ∀ (f2 : Nat) (l : List Nat), l.length ≤ f1 → l.length ≤ f2 →
      drainAux f1 l = drainAux f2 l := by
  induction f1 with
  | zero =>
    intro f2 l h1 h2
    have hl : l = [] := by
      cases l with
      | nil => rfl
      | cons a r => simp at h1
    subst hl
    cases f2 <;> rfl
  | succ n ih =>
    intro f2 l h1 h2
    cases l with
    | nil => cases f2 <;> rfl
    | cons a rest =>
      cases f2 with
      | zero => simp at h2
      | succ m =>
        show (a :: rest).take 1024 :: drainAux n ((a :: rest).drop 1024)
            = (a :: rest).take 1024 :: drainAux m ((a :: rest).drop 1024)
        have hlen : ((a :: rest).drop 1024).length ≤ n := by
          rw [List.length_drop]
          simp only [List.length_cons] at h1 ⊢
          omega
        have hlen2 : ((a :: rest).drop 1024).length ≤ m := by
          rw [List.length_drop]
          simp only [List.length_cons] at h2 ⊢
          omega
        rw [ih _ _ hlen hlen2]

theorem drain_cons (a : Nat) (rest : List Nat) :
    drain (a :: rest) = (a :: rest).take 1024 :: drain ((a :: rest).drop 1024) := by
  have h1 : drain (a :: rest)
      = (a :: rest).take 1024 :: drainAux rest.length ((a :: rest).drop 1024) := rfl
  rw [h1]
  have h2 : drainAux rest.length ((a :: rest).drop 1024)
      = drain ((a :: rest).drop 1024) := by
    apply drainAux_congr
    · rw [List.length_drop]
      simp only [List.length_cons]
      omega
    · exact le_refl _
  rw [h2]

theorem drain_spec (pending : List Nat) :
    (∀ c ∈ drain pending, 0 < c.length ∧ c.length ≤ 1024) ∧
    (drain pending).flatten = pending := by
  generalize hn : pending.length = n
  induction n using Nat.strong_induction_on generalizing pending with
  | _ n ih =>
    rcases pending with _ | ⟨a, rest⟩
    · exact ⟨by intro c hc; simp [drain, drainAux] at hc, rfl⟩
    · rw [drain_cons]
      have hd : ((a :: rest).drop 1024).length < n := by
        rw [List.length_drop]
        simp only [List.length_cons] at hn ⊢
        omega
      obtain ⟨ih1, ih2⟩ := ih _ hd ((a :: rest).drop 1024) rfl
      constructor
      · intro c hc
        rcases List.mem_cons.1 hc with h | h
        · subst h
          constructor
          · rw [List.length_take]
            simp only [List.length_cons]
            omega
          · rw [List.length_take]
            omega
        · exact ih1 c h
      · rw [List.flatten_cons, ih2, List.take_append_drop]

theorem stdinFold_spec (cs : List (List Nat)) (s : IOState) :
    stdinFold cs s = ⟨s.writes ++ cs.map (fun c => cstr c), s.out, s.breakReq⟩ := by
  induction cs generalizing s with
  | nil => simp [stdinFold]
  | cons c cs ih => simp [stdinFold, stdinChunk, ih]

/-- C7: both readiness handlers drain a finite pending buffer and stop. The
chunks successive reads consume are all nonempty and at most 1024 bytes, they
reconstruct the pending buffer exactly, and on an empty pending buffer (the
availability check reports no data) either handler returns with the state
untouched. -/
theorem handlers_drain_nonblocking :
    (∀ pending : List Nat,
      (∀ c ∈ drain pending, 0 < c.length ∧ c.length ≤ 1024) ∧
      (drain pending).flatten = pending) ∧
    (∀ s : IOState, pipeEventCallback [] s = s ∧ stdinEventCallback [] s = s) := by
  exact ⟨drain_spec, fun s => ⟨rfl, rfl⟩⟩

theorem cstr_of_no_nul (l : List Nat) (hl : ∀ b ∈ l, b ≠ 0) : cstr l = l := by
  apply takeWhile_all
  intro a ha
  simpa using hl a ha

theorem map_cstr_id (cs : List (List Nat)) (h : ∀ c ∈ cs, cstr c = c) :
    cs.map (fun c => cstr c) = cs := by
  induction cs with
  | nil => rfl
  | cons c cs ih =>
    simp only [List.map_cons]
    rw [h c (by simp), ih (fun x hx => h x (by simp [hx]))]

/-- C4 (amended): a local-input chunk whose bytes avoid NUL is forwarded to
the Transport in exactly one write carrying exactly the chunk's bytes; a
whole NUL-free pending buffer therefore reaches the Transport verbatim, with
nothing echoed to standard output. -/
theorem local_input_forward (chunk : List Nat) (hz : ∀ b ∈ chunk, b ≠ 0) :
    stdinChunk chunk = [chunk] ∧
    (stdinEventCallback chunk initState).writes.flatten = chunk ∧
    (stdinEventCallback chunk initState).out = [] := by
  have hmap : (drain chunk).map (fun c => cstr c) = drain chunk := by
    apply map_cstr_id
    intro c hc
    apply cstr_of_no_nul
    intro b hb
    apply hz
    rw [← (drain_spec chunk).2]
    exact List.mem_flatten.2 ⟨c, hc, hb⟩
  refine ⟨by simp [stdinChunk, cstr_of_no_nul chunk hz], ?_, ?_⟩
  · rw [stdinEventCallback, stdinFold_spec, hmap]
    exact (drain_spec chunk).2
  · rw [stdinEventCallback, stdinFold_spec]
    rfl

/-- C4 witness at the chunk 104 105. -/
theorem local_input_forward_witness :
    stdinChunk [104, 105] = [[104, 105]] ∧
    (stdinEventCallback [104, 105] initState).writes.flatten = [104, 105] ∧
    (stdinEventCallback [104, 105] initState).out = [] :=
  local_input_forward [104, 105] (by decide)

/-! Helper lemmas about main's branching on the parsed port. -/

theorem mainPath_invalid (h s : List Nat) (r g : Bool)
    (hbad : ¬(0 < atoi s ∧ atoi s < 65536)) :
    mainPath ⟨some h, some s⟩ r g = MainPath.errBadPort := by
  show (if 0 < atoi s ∧ atoi s < 65536
      then
        if r then
          if g then MainPath.run (atoi s) else MainPath.errSignal
        else MainPath.errResolve
      else MainPath.errBadPort) = MainPath.errBadPort
  rw [if_neg hbad]

theorem mainPath_valid (h s : List Nat)
    (hok : 0 < atoi s ∧ atoi s < 65536) :
    mainPath ⟨some h, some s⟩ true true = MainPath.run (atoi s) := by
  show (if 0 < atoi s ∧ atoi s < 65536
      then
        if true then
          if true then MainPath.run (atoi s)
          else MainPath.errSignal
        else MainPath.errResolve
      else MainPath.errBadPort) = MainPath.run (atoi s)
  rw [if_pos hok]
  rfl

/-- C6: a provided port whose atoi value is 0, 65536 or -1 sends main into
the usage-error branch; that branch never evaluates getIPFromHost, so no
resolution or connection is attempted. An invocation without a port argument
keeps the default 6667. -/
theorem port_validation (h s : List Nat) (r g : Bool)
    (hbad : atoi s = 0 ∨ atoi s = 65536 ∨ atoi s = -1) :
    mainPath ⟨some h, some s⟩ r g = MainPath.errBadPort ∧
    resolutionAttempted ⟨some h, some s⟩ r g = false ∧
    effectivePort ⟨some h, none⟩ = 6667 := by
  have hnot : ¬(0 < atoi s ∧ atoi s < 65536) := by
    rcases hbad with hb | hb | hb <;> rw [hb] <;> decide
  have hmp := mainPath_invalid h s r g hnot
  refine ⟨hmp, ?_, rfl⟩
  rw [resolutionAttempted, hmp]

/-- C6 witness: the port string 0 (byte 48) with host h (byte 104). -/
theorem port_validation_witness :
    mainPath ⟨some [104], some [48]⟩ true true = MainPath.errBadPort ∧
    resolutionAttempted ⟨some [104], some [48]⟩ true true = false ∧
    effectivePort ⟨some [104], none⟩ = 6667 :=
  port_validation [104] [48] true true (Or.inl (by decide))

/-! Helper lemmas about atoi. -/

theorem digitsToInt_of_noNumHead (l : List Nat) (h : noNumHead l = true) :
    digitsToInt l 0 = 0 := by
  rcases l with _ | ⟨c, rest⟩
  · rfl
  · have hc : isDigit c = false := by simpa [noNumHead] using h
    simp [digitsToInt, hc]

theorem atoi_no_numeric (s : List Nat) (h : noNumericStart s = true) : atoi s = 0 := by
  rw [noNumericStart] at h
  rw [atoi]
  rcases hds : s.dropWhile isCSpace with _ | ⟨c, rest⟩
  · rfl
  · rw [hds] at h
    by_cases hsign : c = 43 ∨ c = 45
    · have h0 : digitsToInt rest 0 = 0 :=
        digitsToInt_of_noNumHead rest (by simpa [noNumDigit, hsign] using h)
      rcases hsign with h43 | h45
      · subst h43
        simp [atoiSigned, h0]
      · subst h45
        simp [atoiSigned, h0]
    · have hc : isDigit c = false := by simpa [noNumDigit, hsign] using h
      have h43 : c ≠ 43 := fun hh => hsign (Or.inl hh)
      have h45 : c ≠ 45 := fun hh => hsign (Or.inr hh)
      simp [atoiSigned, h43, h45, digitsToInt, hc]

theorem digitsToInt_append_stop (ds junk : List Nat) (j : Nat)
    (hds : ∀ c ∈ ds, isDigit c = true) (hj : isDigit j = false) :
    ∀ acc, digitsToInt (ds ++ j :: junk) acc = digitsToInt ds acc := by
  induction ds with
  | nil =>
    intro acc
    simp [digitsToInt, hj]
  | cons a l ih =>
    intro acc
    have ha : isDigit a = true := hds a (by simp)
    simp only [List.cons_append, digitsToInt, ha, if_true]
    exact ih (fun c hc => hds c (by simp [hc])) _

theorem atoi_digit_run (ds junk : List Nat) (j : Nat) (hne : ds ≠ [])
    (hds : ∀ c ∈ ds, isDigit c = true) (hj : isDigit j = false) :
    atoi (ds ++ j :: junk) = (digitsToInt ds 0 : Int) := by
  rcases ds with _ | ⟨d, dt⟩
  · exact absurd rfl hne
  have hd : isDigit d = true := hds d (by simp)
  have hd48 : 48 ≤ d ∧ d ≤ 57 := by simpa [isDigit] using hd
  have hdspace : isCSpace d = false := by
    simp [isCSpace]
    omega
  have hdrop : ((d :: dt) ++ j :: junk).dropWhile isCSpace = d :: (dt ++ j :: junk) := by
    simp [List.dropWhile_cons, hdspace]
  rw [atoi, hdrop]
  have h43 : d ≠ 43 := by omega
  have h45 : d ≠ 45 := by omega
  rw [atoiSigned, if_neg h43, if_neg h45]
  have := digitsToInt_append_stop (d :: dt) junk j hds hj 0
  rw [← this]
  rfl

/-- C10: the port argument is parsed with atoi semantics. An argument with no
leading numeric prefix (after optional whitespace and one optional sign, no
digit follows) parses to 0 and main rejects it as an invalid port; an
argument made of a digit run whose value lies in 1..65535 followed by
non-digit junk parses to the digit run's value, the junk being silently
ignored, and main proceeds to resolution with that port. -/
theorem atoi_port_semantics :
    (∀ (h s : List Nat) (r g : Bool), noNumericStart s = true →
      atoi s = 0 ∧ mainPath ⟨some h, some s⟩ r g = MainPath.errBadPort) ∧
    (∀ (ds junk h : List Nat) (j : Nat),
      ds ≠ [] → (∀ c ∈ ds, isDigit c = true) → isDigit j = false →
      1 ≤ digitsToInt ds 0 → digitsToInt ds 0 ≤ 65535 →
      atoi (ds ++ j :: junk) = (digitsToInt ds 0 : Int) ∧
      mainPath ⟨some h, some (ds ++ j :: junk)⟩ true true
        = MainPath.run (digitsToInt ds 0) ∧
      resolutionAttempted ⟨some h, some (ds ++ j :: junk)⟩ true true = true) := by
  constructor
  · intro h s r g hpre
    have h0 := atoi_no_numeric s hpre
    refine ⟨h0, mainPath_invalid h s r g ?_⟩
    rw [h0]
    decide
  · intro ds junk h j hne hds hj hlo hhi
    have hv := atoi_digit_run ds junk j hne hds hj
    have hok : 0 < atoi (ds ++ j :: junk) ∧ atoi (ds ++ j :: junk) < 65536 := by
      rw [hv]
      constructor <;> exact_mod_cast by omega
    have hmp := mainPath_valid h (ds ++ j :: junk) hok
    rw [hv] at hmp
    refine ⟨hv, hmp, ?_⟩
    rw [resolutionAttempted, hmp]

/-- C1 (amended): the sscanf in processPing anchors at the start of the read
chunk, so the guarantee holds for chunks that begin with the PING line: for a
chunk PING SP token LF followed by anything, with a nonempty token free of
whitespace and NUL, processing performs exactly one Transport write, PONG SP
token LF, and sends nothing to standard output. -/
theorem ping_line_reply (t rest : List Nat) (hne : t ≠ [])
    (hfree : ∀ c ∈ t, isCSpace c = false ∧ c ≠ 0) :
    pipeChunk ([80, 73, 78, 71, 32] ++ (t ++ 10 :: rest)) = ([pongOf t], []) := by
  rcases t with _ | ⟨th, tt⟩
  · exact absurd rfl hne
  have hts : ∀ c ∈ (th :: tt), (!(isCSpace c)) = true := by
    intro c hc
    simp [(hfree c hc).1]
  have htz : ∀ c ∈ (th :: tt), (c != 0) = true := by
    intro c hc
    simpa using (hfree c hc).2
  have hz5 : ∀ a ∈ ([80, 73, 78, 71, 32] : List Nat), (a != 0) = true := by decide
  -- the C-string view keeps the PING prefix, the token and the newline
  have e3 : List.takeWhile (fun b => b != 0) (10 :: rest)
      = 10 :: rest.takeWhile (fun b => b != 0) := by
    simp [List.takeWhile_cons]
  have hcs : cstr ([80, 73, 78, 71, 32] ++ ((th :: tt) ++ 10 :: rest))
      = [80, 73, 78, 71, 32] ++ ((th :: tt) ++ 10 :: rest.takeWhile (fun b => b != 0)) := by
    rw [cstr, takeWhile_append_all _ _ _ hz5, takeWhile_append_all _ _ _ htz, e3]
  set r2 := rest.takeWhile (fun b => b != 0) with hr2
  -- strstr finds PING at the start
  have hstart : startsWithB ([80, 73, 78, 71, 32] ++ ((th :: tt) ++ 10 :: r2)) pingBytes
      = true := by
    simp [startsWithB, pingBytes]
  have hstr := strstrB_of_starts _ _ hstart
  -- sscanf scans the origin token
  have h4 : ([80, 73, 78, 71, 32] ++ ((th :: tt) ++ 10 :: r2)).take 4 = pingBytes := by
    simp [pingBytes]
  have hdrop4 : ([80, 73, 78, 71, 32] ++ ((th :: tt) ++ 10 :: r2)).drop 4
      = 32 :: ((th :: tt) ++ 10 :: r2) := by
    simp
  have horigin : scanOrigin ([80, 73, 78, 71, 32] ++ ((th :: tt) ++ 10 :: r2)) = th :: tt := by
    rw [scanOrigin, if_pos h4, hdrop4]
    rw [List.dropWhile_cons]
    simp only [show isCSpace 32 = true from rfl, if_true]
    have hth : isCSpace th = false := (hfree th (by simp)).1
    rw [show ((th :: tt) ++ 10 :: r2).dropWhile isCSpace = (th :: tt) ++ 10 :: r2 by
      rw [List.cons_append, List.dropWhile_cons]
      simp [hth]]
    rw [takeWhile_append_all _ _ _ hts]
    simp [List.takeWhile_cons]
    decide
  rw [pipeChunk, hcs]
  simp only [processPing, hstr, if_true, horigin]

/-- C1 witness at the chunk PING SP 58 111 LF (the line PING :o). -/
theorem ping_line_reply_witness :
    pipeChunk ([80, 73, 78, 71, 32] ++ ([58, 111] ++ 10 :: [])) = ([pongOf [58, 111]], []) :=
  ping_line_reply [58, 111] [] (by decide) (by decide)

/-- C1 counterexample: the chunk 97 LF PING SP 58 111 114 105 103 105 110 LF
contains the exact line PING SP :origin LF (checked by the strstr conjunct),
yet the single Transport write is PONG SP LF with an empty origin — not PONG
SP :origin LF — because sscanf fails to match PING at the chunk start. -/
theorem ping_line_reply_cex :
    strstrB [97, 10, 80, 73, 78, 71, 32, 58, 111, 114, 105, 103, 105, 110, 10]
      [80, 73, 78, 71, 32, 58, 111, 114, 105, 103, 105, 110, 10] = true ∧
    pipeChunk [97, 10, 80, 73, 78, 71, 32, 58, 111, 114, 105, 103, 105, 110, 10]
      = ([pongOf []], []) ∧
    pongOf [] ≠ pongOf [58, 111, 114, 105, 103, 105, 110] := by decide

/-- C9 (amended): any C string that contains PING anywhere makes processPing
return 1 and write exactly one reply, PONG SP origin LF with origin the token
sscanf scans. The extraction yields the empty origin (reply PONG SP LF)
exactly in the failure cases of the anchored sscanf: the data does not begin
with the literal PING, or everything after the leading PING is whitespace or
nothing. A chunk beginning with PING followed by a non-whitespace character
still extracts that run as the origin, because the whitespace directive of
sscanf also matches an empty run. -/
theorem ping_detection (d : List Nat) (hping : strstrB d pingBytes = true) :
    processPing d = (true, [pongOf (scanOrigin d)]) ∧
    ((d.take 4 ≠ pingBytes ∨ (d.drop 4).dropWhile isCSpace = []) →
      processPing d = (true, [pongOf []])) := by
  constructor
  · simp [processPing, hping]
  · intro h
    have h0 : scanOrigin d = [] := by
      rw [scanOrigin]
      rcases h with h | h
      · rw [if_neg h]
      · by_cases h4 : d.take 4 = pingBytes
        · rw [if_pos h4, h]
          rfl
        · rw [if_neg h4]
    simp [processPing, hping, h0]

/-- C9 witness at the C string PING (no origin at all): the reply is PONG SP
LF with the empty origin. -/
theorem ping_detection_witness :
    processPing [80, 73, 78, 71] = (true, [pongOf []]) :=
  (ping_detection [80, 73, 78, 71] (by decide)).2 (by decide)

/-- C9 counterexample: the C string PING 120 (PINGx) contains PING and does
not begin with PING followed by whitespace (120 is not whitespace), so the
claim predicts the empty-origin reply PONG SP LF; the code instead extracts
the origin 120 and writes PONG SP 120 LF. -/
theorem ping_detection_cex :
    strstrB [80, 73, 78, 71, 120] pingBytes = true ∧
    isCSpace 120 = false ∧
    processPing [80, 73, 78, 71, 120] = (true, [pongOf [120]]) ∧
    pongOf [120] ≠ pongOf [] := by decide
